import Mathlib

/-
Shallow embedding of src/timetable_solver.py (TimeTable-Generator).

Modelling conventions:
- Python dataclasses become Lean structures with the same field names.
- Python dicts are modelled extensionally: `defaultdict(set)` conflict
  indices become `Finset (String × String)` of (resource id, slot id)
  pairs (lookup of an absent key yields the empty set, exactly as the
  defaultdict does); the `(section_id, course_id) -> Assignment` dict is
  the finite graph of the map, with insertion overwriting the key.
- `dict(...)` built from a list (e.g. `{c.id: c for c in courses}`) keeps
  the first-occurrence order of keys and the last value written for each
  key; `dictValues` reproduces `dict.values()` of such a dict.
- The recursive search is embedded with an explicit recursion-depth
  budget (`fuel`): every nested `backtrack` call strictly shrinks the
  unassigned list, so a budget equal to the initial number of variables
  can never be exhausted; when it would be, the embedding returns the
  failure result, which no claim about returned timetables can observe.
- Printing and wall-clock telemetry are dropped; the `backtracks` and
  `assignments_tried` counters, which are observable on the solver
  object, are threaded through a `SearchStats` record, and `solve`
  additionally counts how many `backtracking_search` invocations ran
  (the attempt number that Python prints on each restart).
-/

structure Course where
  id : String
  name : String
  credits : Nat
  type : String
deriving DecidableEq, Repr

structure Instructor where
  id : String
  name : String
  unavailable_days : List String
  qualified_courses : List String
deriving DecidableEq, Repr

structure Room where
  id : String
  type : String
  capacity : Nat
deriving DecidableEq, Repr

structure Section where
  id : String
  student_count : Nat
  courses : List String
deriving DecidableEq, Repr

structure TimeSlot where
  id : String
  day : String
  start_time : String
  end_time : String
  duration : Nat
deriving DecidableEq, Repr

structure Assignment where
  section_id : String
  course_id : String
  time_slot : TimeSlot
  room : Room
  instructor : Instructor
deriving DecidableEq, Repr

/-- Python `dict` semantics for `d[k] = v`: drop any existing pair with
this key, then insert the new pair (the map's graph, extensionally). -/
def dictSet (m : Finset ((String × String) × Assignment))
    (k : String × String) (v : Assignment) : Finset ((String × String) × Assignment) :=
  insert (k, v) (m.filter (fun p => p.1 ≠ k))

/-- Python `del d[k]`: drop the pair with this key. -/
def dictDel (m : Finset ((String × String) × Assignment))
    (k : String × String) : Finset ((String × String) × Assignment) :=
  m.filter (fun p => p.1 ≠ k)

/-- Timetable aggregate: assignment list, (section, course) -> Assignment
map, and the three conflict indices (sets of (resource id, slot id)). -/
structure Timetable where
  assignments : List Assignment
  assignment_dict : Finset ((String × String) × Assignment)
  instructor_schedule : Finset (String × String)
  room_schedule : Finset (String × String)
  section_schedule : Finset (String × String)
deriving DecidableEq

/-- Timetable() constructor: everything empty. -/
def emptyTimetable : Timetable :=
  { assignments := []
    assignment_dict := ∅
    instructor_schedule := ∅
    room_schedule := ∅
    section_schedule := ∅ }

/-- Timetable.add_assignment: append to the list, write the dict key,
and insert the slot id into each of the three indices. -/
def add_assignment (tt : Timetable) (a : Assignment) : Timetable :=
  { assignments := tt.assignments ++ [a]
    assignment_dict := dictSet tt.assignment_dict (a.section_id, a.course_id) a
    instructor_schedule := insert (a.instructor.id, a.time_slot.id) tt.instructor_schedule
    room_schedule := insert (a.room.id, a.time_slot.id) tt.room_schedule
    section_schedule := insert (a.section_id, a.time_slot.id) tt.section_schedule }

/-- Timetable.remove_assignment: remove the first equal element from the
list, delete the dict key, and erase the slot id from each index. -/
def remove_assignment (tt : Timetable) (a : Assignment) : Timetable :=
  { assignments := tt.assignments.erase a
    assignment_dict := dictDel tt.assignment_dict (a.section_id, a.course_id)
    instructor_schedule := tt.instructor_schedule.erase (a.instructor.id, a.time_slot.id)
    room_schedule := tt.room_schedule.erase (a.room.id, a.time_slot.id)
    section_schedule := tt.section_schedule.erase (a.section_id, a.time_slot.id) }

/-- FinalFixSolver._is_consistent: the three early-return conflict checks. -/
def is_consistent (tt : Timetable) (a : Assignment) : Bool :=
  if (a.instructor.id, a.time_slot.id) ∈ tt.instructor_schedule then false
  else if (a.room.id, a.time_slot.id) ∈ tt.room_schedule then false
  else if (a.section_id, a.time_slot.id) ∈ tt.section_schedule then false
  else true

/-- Reference value of the per-day load-balancing cap (the literal 55 in
the source). -/
def DAY_CAP : Nat := 55

/-- FinalFixSolver._is_consistent_with_load_balancing: the conflict
checks, then reject when the candidate's day already carries 55 or more
assignments. -/
def is_consistent_with_load_balancing (tt : Timetable) (a : Assignment) : Bool :=
  if is_consistent tt a then
    let day := a.time_slot.day
    let day_assignments := tt.assignments.countP (fun b => b.time_slot.day == day)
    if 55 ≤ day_assignments then false else true
  else false

/-- Last element of a list carrying the given key (the value a Python
dict built from the list holds at that key). -/
def lastWithKey {α : Type} (key : α → String) (l : List α) (k : String) : Option α :=
  (l.filter (fun x => key x == k)).getLast?

/-- Keys of a list in order of first occurrence, without duplicates. -/
def firstKeys {α : Type} (key : α → String) : List α → List String
  | [] => []
  | x :: xs => key x :: (firstKeys key xs).filter (fun k => k != key x)

/-- Values of the Python dict `{key(x): x for x in l}` in iteration
order: first-occurrence key order, last value written per key. -/
def dictValues {α : Type} (key : α → String) (l : List α) : List α :=
  (firstKeys key l).filterMap (lastWithKey key l)

/-- Inner loop of _fix_room_types: set the type of the first `n` rooms
of type "Lab" (in list order) to "Classroom". -/
def promoteFirstLabs : Nat → List Room → List Room
  | _, [] => []
  | 0, rs => rs
  | n + 1, r :: rs =>
    if r.type == "Lab" then { r with type := "Classroom" } :: promoteFirstLabs n rs
    else r :: promoteFirstLabs (n + 1) rs

/-- FinalFixSolver._fix_room_types: when no room has type "Classroom",
convert the first 20 "Lab" rooms to "Classroom"; then build the room
dict (its values, since only `.values()` is ever read). -/
def fix_room_types (rooms : List Room) : List Room :=
  dictValues Room.id
    (if (rooms.filter (fun r => r.type == "Classroom")).length == 0
     then promoteFirstLabs 20 rooms else rooms)

/-- Hard-coded orphan course list of _fix_instructor_qualifications. -/
def missing_courses : List String := ["LRA401", "LRA101", "LRA103", "LRA403", "LRA106"]

/-- Hard-coded instructor-id fragments of _fix_instructor_qualifications. -/
def instructorMarkers : List String :=
  ["PROF27", "PROF28", "PROF29", "PROF30", "PROF31", "PROF32", "PROF33", "PROF34", "PROF35"]

/-- Python `needle in hay` on strings: substring containment. -/
def strContains (hay needle : String) : Bool :=
  decide (needle.toList <:+: hay.toList)

/-- Test `any(marker in instr.id for marker in instructorMarkers)` from
the source: the id CONTAINS one of the configured fragments. -/
def isSuitable (i : Instructor) : Bool :=
  instructorMarkers.any (fun m => strContains i.id m)

/-- Append the course id to the qualified list unless already present
(the `if course_id not in ...: append` body of the source). -/
def addQual (c : String) (i : Instructor) : Instructor :=
  if c ∈ i.qualified_courses then i
  else { i with qualified_courses := i.qualified_courses ++ [c] }

/-- Ids of `suitable_instructors[:3]`: the first three instructors whose
id contains one of the configured fragments. -/
def chosenIds (l : List Instructor) : List String :=
  ((l.filter isSuitable).take 3).map Instructor.id

/-- One round of the course loop in _fix_instructor_qualifications:
give this course to the first three suitable instructors. -/
def applyCourse (c : String) (l : List Instructor) : List Instructor :=
  l.map (fun i => if i.id ∈ chosenIds l then addQual c i else i)

/-- FinalFixSolver._fix_instructor_qualifications: run the course loop
over the hard-coded orphan list. -/
def fix_instructor_qualifications (l : List Instructor) : List Instructor :=
  missing_courses.foldl (fun acc c => applyCourse c acc) l

/-- Hard-coded lab-course set of _precompute_domains_final. -/
def LAB_COURSES : List String :=
  ["PHY113", "PHY123", "CHM113", "ECE111", "ECE223", "ECE214", "CNC222"]

/-- Python `self.courses[course_id]` on the (deduplicated) course dict. -/
def findCourse (l : List Course) (cid : String) : Option Course :=
  l.find? (fun c => c.id == cid)

/-- Post-init state of FinalFixSolver: entity collections after the two
normalisation fixes and the dict conversions of __init__. -/
structure Solver where
  courses : List Course
  instructors : List Instructor
  rooms : List Room
  sections : List Section
  time_slots : List TimeSlot
deriving DecidableEq

/-- FinalFixSolver.__init__ pipeline on the raw input lists: build the
dicts, fix room types, fix instructor qualifications. The tail of
__init__ additionally computes domain-size statistics that raise on an
empty variable list; `mkSolverChecked` adds that check. -/
def mkSolver (courses : List Course) (instructors : List Instructor)
    (rooms : List Room) (sections : List Section) (time_slots : List TimeSlot) : Solver :=
  { courses := dictValues Course.id courses
    instructors := fix_instructor_qualifications (dictValues Instructor.id instructors)
    rooms := fix_room_types rooms
    sections := sections
    time_slots := dictValues TimeSlot.id time_slots }

/-- FinalFixSolver._create_variables: one (section id, course id) pair
per course of each section, in input order. -/
def create_variables (sections : List Section) : List (String × String) :=
  sections.flatMap (fun s => s.courses.map (fun c => (s.id, c)))

/-- FinalFixSolver._precompute_domains_final for one variable. A missing
course id makes the Python lookup `self.courses[course_id]` raise; runs
reaching that point produce no timetable, and the embedding returns the
empty domain, which likewise produces none. -/
def domainFor (S : Solver) (v : String × String) : List (TimeSlot × Room × Instructor) :=
  match findCourse S.courses v.2 with
  | none => []
  | some course =>
    let suitable_rooms :=
      if v.2 ∈ LAB_COURSES ∨ strContains course.type "Lab" = true
      then S.rooms.filter (fun r => r.type == "Lab")
      else S.rooms.filter (fun r => r.type == "Classroom")
    let qualified_instructors := S.instructors.filter (fun i => v.2 ∈ i.qualified_courses)
    if qualified_instructors.isEmpty then []
    else if suitable_rooms.isEmpty then []
    else
      S.time_slots.flatMap (fun ts =>
        suitable_rooms.flatMap (fun r =>
          (qualified_instructors.filter (fun i => ts.day ∉ i.unavailable_days)).map
            (fun i => (ts, r, i))))

/-- Precomputed domain map (a function, queried only at variables). -/
def domains (S : Solver) (v : String × String) : List (TimeSlot × Room × Instructor) :=
  domainFor S v

/-- Domain-size statistics printed at the end of __init__
(`min(domain_sizes)`, `max(domain_sizes)`): Python's min and max raise
ValueError on an empty sequence, modelled by none. -/
def initDomainStats (S : Solver) : Option (Nat × Nat) :=
  let domain_sizes := (create_variables S.sections).map (fun v => (domains S v).length)
  match domain_sizes.min?, domain_sizes.max? with
  | some mn, some mx => some (mn, mx)
  | _, _ => none

/-- FinalFixSolver construction including the __init__ statistics line:
none models the ValueError raised by `min(domain_sizes)` when the
variable list is empty, in which case the solver object never exists
and solve is unreachable. -/
def mkSolverChecked (courses : List Course) (instructors : List Instructor)
    (rooms : List Room) (sections : List Section) (time_slots : List TimeSlot) :
    Option Solver :=
  let S := mkSolver courses instructors rooms sections time_slots
  match initDomainStats S with
  | some _ => some S
  | none => none

/-- Loop body of _select_next_variable: keep the current best unless a
strictly smaller domain appears. -/
def selectGo (S : Solver) (best : String × String) :
    List (String × String) → String × String
  | [] => best
  | y :: ys =>
    if (domains S y).length < (domains S best).length then selectGo S y ys
    else selectGo S best ys

/-- FinalFixSolver._select_next_variable: MRV over static domain sizes;
the initial `min_size = inf` makes the first element the first best. -/
def select_next_variable (S : Solver) : List (String × String) → Option (String × String)
  | [] => none
  | x :: xs => some (selectGo S x xs)

/-- Search statistics kept on the solver object. -/
structure SearchStats where
  backtracks : Nat
  assignments_tried : Nat
deriving DecidableEq, Repr

/-- Assignment literal built in the value loop of `backtrack`. -/
def mkAssignment (v : String × String) (val : TimeSlot × Room × Instructor) : Assignment :=
  { section_id := v.1
    course_id := v.2
    time_slot := val.1
    room := val.2.1
    instructor := val.2.2 }

/-- Value loop of `backtrack` (the `for value in domain` body), with the
nested recursive call abstracted as `recur`. A failed recursive call
leaves the Python timetable object equal to its entry state (each nested
add is undone by the matching remove; see `add_remove_restore`), so
the continuation reuses `remove_assignment (add_assignment tt a) a`. -/
def tryValuesF
    (recur : SearchStats → Timetable → List (String × String) → SearchStats × Option Timetable)
    (st : SearchStats) (tt : Timetable) (var : String × String) :
    List (TimeSlot × Room × Instructor) → List (String × String) → SearchStats × Option Timetable
  | [], _ => (st, none)
  | value :: rest, unassigned =>
    if is_consistent_with_load_balancing tt (mkAssignment var value) then
      match recur ⟨st.backtracks, st.assignments_tried + 1⟩
          (add_assignment tt (mkAssignment var value))
          (unassigned.filter (fun v => v != var)) with
      | (st2, some result) => (st2, some result)
      | (st2, none) =>
        tryValuesF recur ⟨st2.backtracks + 1, st2.assignments_tried⟩
          (remove_assignment (add_assignment tt (mkAssignment var value)) (mkAssignment var value))
          var rest unassigned
    else
      tryValuesF recur ⟨st.backtracks, st.assignments_tried + 1⟩ tt var rest unassigned

/-- Recursive `backtrack` of backtracking_search. `fuel` is the explicit
recursion-depth budget: every nested call strictly shrinks `unassigned`,
so the initial budget `unassigned.length` keeps the fuel-exhaustion
branch unreachable; it conservatively answers "no solution". -/
def backtrackFuel (S : Solver) (maxB : Nat) :
    Nat → SearchStats → Timetable → List (String × String) → SearchStats × Option Timetable
  | _, st, tt, [] => (st, some tt)
  | 0, st, _, _ :: _ => (st, none)
  | fuel + 1, st, tt, u :: us =>
    if st.backtracks > maxB then (st, none)
    else
      match select_next_variable S (u :: us) with
      | none => (st, none)
      | some var =>
        tryValuesF (fun st' tt' un' => backtrackFuel S maxB fuel st' tt' un')
          st tt var (domains S var) (u :: us)

/-- FinalFixSolver.backtracking_search: reset the counters, start from a
fresh empty timetable and a copy of the variable list. -/
def backtracking_search (S : Solver) (max_backtracks : Nat := 100000) :
    SearchStats × Option Timetable :=
  let vars := create_variables S.sections
  backtrackFuel S max_backtracks vars.length ⟨0, 0⟩ emptyTimetable vars

/-- Attempt loop of FinalFixSolver.solve, instrumented with the number
of backtracking_search invocations performed (the attempt counter the
source prints on each restart). -/
def solveAttempts (S : Solver) : Nat → Nat → Option Timetable × Nat
  | 0, k => (none, k)
  | n + 1, k =>
    match (backtracking_search S).2 with
    | some t => (some t, k + 1)
    | none => solveAttempts S n (k + 1)

/-- FinalFixSolver.solve with its default three attempts. -/
def solve (S : Solver) : Option Timetable :=
  (solveAttempts S 3 0).1

/-- Concrete time slot used by the witness instances. -/
def slotMon9 : TimeSlot := ⟨"T1", "Monday", "09:00", "09:45", 45⟩

/-- Concrete classroom used by the witness instances. -/
def roomR1 : Room := ⟨"R1", "Classroom", 40⟩

/-- Concrete lab room used by the witness instances. -/
def roomL1 : Room := ⟨"L1", "Lab", 40⟩

/-- Concrete instructor used by the witness instances. -/
def instrI1 : Instructor := ⟨"I1", "Alice", [], ["C1"]⟩

/-- Concrete course used by the witness instances. -/
def courseC1 : Course := ⟨"C1", "Intro", 3, "Theory"⟩

/-- Concrete section used by the witness instances. -/
def sectionS1 : Section := ⟨"S1", 30, ["C1"]⟩

/-- Feasible one-variable instance: solve succeeds on it. -/
def solverFeasible : Solver :=
  mkSolver [courseC1] [instrI1] [roomR1, roomL1] [sectionS1] [slotMon9]

/-- Timetable that solve returns on the feasible instance. -/
def ttFeasible : Timetable := (solve solverFeasible).getD emptyTimetable

/-- Assignment that solve places on the feasible instance (also used by
several witnesses). -/
def assignMon : Assignment := ⟨"S1", "C1", slotMon9, roomR1, instrI1⟩


/-- Unpack a successful _is_consistent check into the three
non-membership facts. -/
theorem is_consistent_spec {tt : Timetable} {a : Assignment}
    (h : is_consistent tt a = true) :
    (a.instructor.id, a.time_slot.id) ∉ tt.instructor_schedule ∧
    (a.room.id, a.time_slot.id) ∉ tt.room_schedule ∧
    (a.section_id, a.time_slot.id) ∉ tt.section_schedule := by
  by_cases h1 : (a.instructor.id, a.time_slot.id) ∈ tt.instructor_schedule
  · simp [is_consistent, h1] at h
  by_cases h2 : (a.room.id, a.time_slot.id) ∈ tt.room_schedule
  · simp [is_consistent, h1, h2] at h
  by_cases h3 : (a.section_id, a.time_slot.id) ∈ tt.section_schedule
  · simp [is_consistent, h1, h2, h3] at h
  exact ⟨h1, h2, h3⟩

/-- Unpack a successful load-balancing check: the plain consistency
check passed and the candidate's day count is below the cap. -/
theorem lb_spec {tt : Timetable} {a : Assignment}
    (h : is_consistent_with_load_balancing tt a = true) :
    is_consistent tt a = true ∧
    tt.assignments.countP (fun b => b.time_slot.day == a.time_slot.day) < 55 := by
  by_cases hc : is_consistent tt a
  · refine ⟨hc, ?_⟩
    by_cases hd : 55 ≤ tt.assignments.countP (fun b => b.time_slot.day == a.time_slot.day)
    · simp [is_consistent_with_load_balancing, hc, hd] at h
    · omega
  · simp [is_consistent_with_load_balancing, hc] at h

/-- Adding a fresh assignment and removing it restores every component
of the timetable. This is the exact state restoration the search relies
on after a failed subtree. -/
theorem add_remove_restore (tt : Timetable) (a : Assignment)
    (hI : (a.instructor.id, a.time_slot.id) ∉ tt.instructor_schedule)
    (hR : (a.room.id, a.time_slot.id) ∉ tt.room_schedule)
    (hS : (a.section_id, a.time_slot.id) ∉ tt.section_schedule)
    (hl : a ∉ tt.assignments)
    (hd : ∀ p ∈ tt.assignment_dict, p.1 ≠ (a.section_id, a.course_id)) :
    remove_assignment (add_assignment tt a) a = tt := by
  cases tt with
  | mk asg dict isch rsch ssch =>
    simp only [add_assignment, remove_assignment, Timetable.mk.injEq] at *
    refine ⟨?_, ?_, ?_, ?_, ?_⟩
    · show (asg ++ [a]).erase a = asg
      rw [List.erase_append_right _ (by simpa using hl), List.erase_cons_head,
        List.append_nil]
    · show dictDel (dictSet dict (a.section_id, a.course_id) a) (a.section_id, a.course_id) = dict
      unfold dictDel dictSet
      rw [Finset.filter_insert]
      simp only [ne_eq, not_true_eq_false, if_false]
      rw [Finset.filter_filter]
      simp only [and_self]
      exact Finset.filter_true_of_mem hd
    · exact Finset.erase_insert hI
    · exact Finset.erase_insert hR
    · exact Finset.erase_insert hS

/-- Unary properties every domain value gives the assignment built from
it: qualified instructor, available day, and the room-type law. -/
def AssignOK (S : Solver) (a : Assignment) : Prop :=
  a.course_id ∈ a.instructor.qualified_courses ∧
  a.time_slot.day ∉ a.instructor.unavailable_days ∧
  ∀ c, findCourse S.courses a.course_id = some c →
    ((a.course_id ∈ LAB_COURSES ∨ strContains c.type "Lab" = true) ↔ a.room.type = "Lab") ∧
    (¬(a.course_id ∈ LAB_COURSES ∨ strContains c.type "Lab" = true) → a.room.type = "Classroom")

/-- Room type recorded by a type filter. -/
theorem mem_filter_type {r : Room} {t : String} {rooms : List Room}
    (h : r ∈ rooms.filter (fun x => x.type == t)) : r.type = t := by
  have := (List.mem_filter.1 h).2
  simpa using this

/-- Every member of a precomputed domain satisfies the unary
constraints the domain builder filtered on. -/
theorem mem_domains_ok (S : Solver) (v : String × String)
    (val : TimeSlot × Room × Instructor) (h : val ∈ domains S v) :
    AssignOK S (mkAssignment v val) := by
  unfold domains domainFor at h
  split at h
  next => simp at h
  next course hf =>
    simp only [] at h
    by_cases hreq : v.2 ∈ LAB_COURSES ∨ strContains course.type "Lab" = true
    · rw [if_pos hreq] at h
      split_ifs at h with h1 h2
      · simp at h
      · simp at h
      · obtain ⟨ts, hts, hrest⟩ := List.mem_flatMap.1 h
        obtain ⟨r, hr, hmap⟩ := List.mem_flatMap.1 hrest
        obtain ⟨i, hi, hval⟩ := List.mem_map.1 hmap
        obtain ⟨hiq, hiav⟩ := List.mem_filter.1 hi
        have hqual : v.2 ∈ i.qualified_courses := by
          simpa using (List.mem_filter.1 hiq).2
        have havail : ts.day ∉ i.unavailable_days := by simpa using hiav
        have hlab : r.type = "Lab" := mem_filter_type hr
        subst hval
        refine ⟨by simpa [mkAssignment] using hqual,
          by simpa [mkAssignment] using havail, ?_⟩
        intro c hc
        simp only [mkAssignment] at hc ⊢
        rw [hf] at hc
        obtain rfl : course = c := Option.some.inj hc
        exact ⟨⟨fun _ => hlab, fun _ => hreq⟩, fun hn => absurd hreq hn⟩
    · rw [if_neg hreq] at h
      split_ifs at h with h1 h2
      · simp at h
      · simp at h
      · obtain ⟨ts, hts, hrest⟩ := List.mem_flatMap.1 h
        obtain ⟨r, hr, hmap⟩ := List.mem_flatMap.1 hrest
        obtain ⟨i, hi, hval⟩ := List.mem_map.1 hmap
        obtain ⟨hiq, hiav⟩ := List.mem_filter.1 hi
        have hqual : v.2 ∈ i.qualified_courses := by
          simpa using (List.mem_filter.1 hiq).2
        have havail : ts.day ∉ i.unavailable_days := by simpa using hiav
        have hcls : r.type = "Classroom" := mem_filter_type hr
        subst hval
        refine ⟨by simpa [mkAssignment] using hqual,
          by simpa [mkAssignment] using havail, ?_⟩
        intro c hc
        simp only [mkAssignment] at hc ⊢
        rw [hf] at hc
        obtain rfl : course = c := Option.some.inj hc
        refine ⟨⟨fun hx => absurd hx hreq, fun hx => ?_⟩, fun _ => hcls⟩
        rw [hcls] at hx
        exact absurd hx (by decide)

/-- Two assignments do not clash on (instructor, slot). -/
def noClashI (a b : Assignment) : Prop :=
  ¬(a.instructor.id = b.instructor.id ∧ a.time_slot.id = b.time_slot.id)

/-- Two assignments do not clash on (room, slot). -/
def noClashR (a b : Assignment) : Prop :=
  ¬(a.room.id = b.room.id ∧ a.time_slot.id = b.time_slot.id)

/-- Two assignments do not clash on (section, slot). -/
def noClashS (a b : Assignment) : Prop :=
  ¬(a.section_id = b.section_id ∧ a.time_slot.id = b.time_slot.id)

/-- Invariant carried by every timetable state the search reaches,
relative to the current unassigned variable list. -/
structure SearchInv (S : Solver) (tt : Timetable) (un : List (String × String)) : Prop where
  memI : ∀ a ∈ tt.assignments, (a.instructor.id, a.time_slot.id) ∈ tt.instructor_schedule
  memR : ∀ a ∈ tt.assignments, (a.room.id, a.time_slot.id) ∈ tt.room_schedule
  memS : ∀ a ∈ tt.assignments, (a.section_id, a.time_slot.id) ∈ tt.section_schedule
  pwI : tt.assignments.Pairwise noClashI
  pwR : tt.assignments.Pairwise noClashR
  pwS : tt.assignments.Pairwise noClashS
  okA : ∀ a ∈ tt.assignments, AssignOK S a
  cap : ∀ d : String, tt.assignments.countP (fun b => b.time_slot.day == d) ≤ 55
  fresh : ∀ a ∈ tt.assignments, (a.section_id, a.course_id) ∉ un
  dictKeys : ∀ p ∈ tt.assignment_dict, ∃ b ∈ tt.assignments, p.1 = (b.section_id, b.course_id)

/-- Properties of a returned timetable (those independent of the
unassigned list). -/
structure GoodTT (S : Solver) (tt : Timetable) : Prop where
  pwI : tt.assignments.Pairwise noClashI
  pwR : tt.assignments.Pairwise noClashR
  pwS : tt.assignments.Pairwise noClashS
  okA : ∀ a ∈ tt.assignments, AssignOK S a
  cap : ∀ d : String, tt.assignments.countP (fun b => b.time_slot.day == d) ≤ 55

/-- Forget the unassigned-relative parts of the invariant. -/
theorem SearchInv.toGood {S : Solver} {tt : Timetable} {un : List (String × String)}
    (inv : SearchInv S tt un) : GoodTT S tt :=
  ⟨inv.pwI, inv.pwR, inv.pwS, inv.okA, inv.cap⟩

/-- Empty timetable satisfies the invariant for any variable list. -/
theorem searchInv_empty (S : Solver) (un : List (String × String)) :
    SearchInv S emptyTimetable un := by
  constructor <;> simp [emptyTimetable]

/-- Adding a consistent assignment for a variable preserves the
invariant, relative to the filtered unassigned list. -/
theorem searchInv_add {S : Solver} {tt : Timetable} {un : List (String × String)}
    (inv : SearchInv S tt un) {a : Assignment} {var : String × String}
    (hkey : (a.section_id, a.course_id) = var)
    (hok : AssignOK S a)
    (hc : is_consistent_with_load_balancing tt a = true) :
    SearchInv S (add_assignment tt a) (un.filter (fun v => v != var)) := by
  obtain ⟨hcc, hcap⟩ := lb_spec hc
  obtain ⟨hI, hR, hS⟩ := is_consistent_spec hcc
  constructor
  · intro b hb
    rcases List.mem_append.1 hb with hb | hb
    · exact Finset.mem_insert_of_mem (inv.memI b hb)
    · obtain rfl : b = a := by simpa using hb
      exact Finset.mem_insert_self _ _
  · intro b hb
    rcases List.mem_append.1 hb with hb | hb
    · exact Finset.mem_insert_of_mem (inv.memR b hb)
    · obtain rfl : b = a := by simpa using hb
      exact Finset.mem_insert_self _ _
  · intro b hb
    rcases List.mem_append.1 hb with hb | hb
    · exact Finset.mem_insert_of_mem (inv.memS b hb)
    · obtain rfl : b = a := by simpa using hb
      exact Finset.mem_insert_self _ _
  · refine List.pairwise_append.2 ⟨inv.pwI, by simp, ?_⟩
    intro x hx y hy
    obtain rfl : y = a := by simpa using hy
    intro ⟨he1, he2⟩
    exact hI (by rw [← he1, ← he2]; exact inv.memI x hx)
  · refine List.pairwise_append.2 ⟨inv.pwR, by simp, ?_⟩
    intro x hx y hy
    obtain rfl : y = a := by simpa using hy
    intro ⟨he1, he2⟩
    exact hR (by rw [← he1, ← he2]; exact inv.memR x hx)
  · refine List.pairwise_append.2 ⟨inv.pwS, by simp, ?_⟩
    intro x hx y hy
    obtain rfl : y = a := by simpa using hy
    intro ⟨he1, he2⟩
    exact hS (by rw [← he1, ← he2]; exact inv.memS x hx)
  · intro b hb
    rcases List.mem_append.1 hb with hb | hb
    · exact inv.okA b hb
    · obtain rfl : b = a := by simpa using hb
      exact hok
  · intro d
    show (tt.assignments ++ [a]).countP (fun b => b.time_slot.day == d) ≤ 55
    rw [List.countP_append]
    by_cases hday : a.time_slot.day = d
    · have h1 : ([a].countP fun b => b.time_slot.day == d) = 1 := by
        simp [List.countP_cons, hday]
      have h2 : (tt.assignments.countP fun b => b.time_slot.day == d) < 55 := by
        rw [← hday]
        simpa using hcap
      omega
    · have h1 : ([a].countP fun b => b.time_slot.day == d) = 0 := by
        simp [List.countP_cons, hday]
      have h2 := inv.cap d
      omega
  · intro b hb
    rcases List.mem_append.1 hb with hb | hb
    · intro hmem
      exact inv.fresh b hb (List.mem_filter.1 hmem).1
    · obtain rfl : b = a := by simpa using hb
      rw [hkey]
      intro hmem
      have := (List.mem_filter.1 hmem).2
      simp at this
  · intro p hp
    unfold add_assignment dictSet at hp
    rcases Finset.mem_insert.1 hp with hp | hp
    · exact ⟨a, by simp [add_assignment], by rw [hp]⟩
    · obtain ⟨b, hb, hbk⟩ := inv.dictKeys p (Finset.mem_filter.1 hp).1
      exact ⟨b, by simp [add_assignment]; exact Or.inl hb, hbk⟩

/-- Within the invariant, the removal following a failed subtree
restores the exact pre-add timetable. -/
theorem restore_eq_of_inv {S : Solver} {tt : Timetable} {un : List (String × String)}
    (inv : SearchInv S tt un) {a : Assignment} {var : String × String}
    (hkey : (a.section_id, a.course_id) = var) (hvar : var ∈ un)
    (hc : is_consistent tt a = true) :
    remove_assignment (add_assignment tt a) a = tt := by
  obtain ⟨hI, hR, hS⟩ := is_consistent_spec hc
  refine add_remove_restore tt a hI hR hS ?_ ?_
  · intro hmem
    exact inv.fresh a hmem (by rw [hkey]; exact hvar)
  · intro p hp hpk
    obtain ⟨b, hb, hbk⟩ := inv.dictKeys p hp
    exact inv.fresh b hb (by rw [← hbk, hpk, hkey]; exact hvar)

/-- Characterisation of the selection loop: the returned variable is an
element of `best :: l`, has minimal static domain size there, and every
element strictly before it has a strictly larger domain. -/
theorem selectGo_spec (S : Solver) :
    ∀ (l : List (String × String)) (best : String × String),
      ∃ pre post, best :: l = pre ++ selectGo S best l :: post ∧
        (∀ u ∈ best :: l, (domains S (selectGo S best l)).length ≤ (domains S u).length) ∧
        (∀ u ∈ pre, (domains S (selectGo S best l)).length < (domains S u).length) := by
  intro l
  induction l with
  | nil =>
    intro best
    exact ⟨[], [], by simp [selectGo], by simp [selectGo], by simp⟩
  | cons y ys ih =>
    intro best
    rw [selectGo]
    by_cases hlt : (domains S y).length < (domains S best).length
    · rw [if_pos hlt]
      obtain ⟨pre, post, heq, hmin, hpre⟩ := ih y
      refine ⟨best :: pre, post, ?_, ?_, ?_⟩
      · rw [List.cons_append, ← heq]
      · intro u hu
        rcases List.mem_cons.1 hu with rfl | hu
        · have h1 := hmin y (by simp)
          omega
        · exact hmin u hu
      · intro u hu
        rcases List.mem_cons.1 hu with rfl | hu
        · have h1 := hmin y (by simp)
          omega
        · exact hpre u hu
    · rw [if_neg hlt]
      obtain ⟨pre, post, heq, hmin, hpre⟩ := ih best
      cases pre with
      | nil =>
        simp only [List.nil_append, List.cons.injEq] at heq
        obtain ⟨hr, hpost⟩ := heq
        refine ⟨[], y :: ys, by simp [← hr], ?_, by simp⟩
        intro u hu
        rcases List.mem_cons.1 hu with rfl | hu
        · exact hmin u (by simp)
        · rcases List.mem_cons.1 hu with rfl | hu
          · have h1 := hmin best (by simp)
            omega
          · exact hmin u (by simp [hu])
      | cons p0 pre2 =>
        simp only [List.cons_append, List.cons.injEq] at heq
        obtain ⟨hp0, hys⟩ := heq
        refine ⟨best :: y :: pre2, post, ?_, ?_, ?_⟩
        · simp only [List.cons_append]
          rw [← hys]
        · intro u hu
          rcases List.mem_cons.1 hu with rfl | hu
          · exact hmin u (by simp)
          · rcases List.mem_cons.1 hu with rfl | hu
            · have h1 := hpre p0 (by simp)
              rw [← hp0] at h1
              omega
            · exact hmin u (by simp [hu])
        · intro u hu
          rcases List.mem_cons.1 hu with rfl | hu
          · have h1 := hpre p0 (by simp)
            rw [← hp0] at h1
            exact h1
          · rcases List.mem_cons.1 hu with rfl | hu
            · have h1 := hpre p0 (by simp)
              rw [← hp0] at h1
              omega
            · exact hpre u (by simp [hu])

/-- MRV selection on a non-empty list (helper form). -/
theorem select_min_spec (S : Solver) (un : List (String × String)) (h : un ≠ []) :
    ∃ v pre post, select_next_variable S un = some v ∧ un = pre ++ v :: post ∧
      (∀ u ∈ un, (domains S v).length ≤ (domains S u).length) ∧
      (∀ u ∈ pre, (domains S v).length < (domains S u).length) := by
  cases un with
  | nil => exact absurd rfl h
  | cons x xs =>
    obtain ⟨pre, post, heq, hmin, hpre⟩ := selectGo_spec S xs x
    exact ⟨selectGo S x xs, pre, post, rfl, heq, fun u hu => hmin u hu, hpre⟩

/-- The selected variable is a member of the list it was selected from. -/
theorem select_mem {S : Solver} {un : List (String × String)} {v : String × String}
    (h : select_next_variable S un = some v) : v ∈ un := by
  cases un with
  | nil => simp [select_next_variable] at h
  | cons x xs =>
    obtain ⟨pre, post, heq, _, _⟩ := selectGo_spec S xs x
    have hv : selectGo S x xs = v := by
      simpa [select_next_variable] using h
    rw [← hv, heq]
    simp

/-- Soundness of the value loop: assuming the recursive call only
returns good timetables from invariant states, a successful value loop
from an invariant state returns a good timetable. -/
theorem tryValuesF_sound (S : Solver)
    (recur : SearchStats → Timetable → List (String × String) → SearchStats × Option Timetable)
    (hrec : ∀ st1 tt1 un1 st2 r2, SearchInv S tt1 un1 →
      recur st1 tt1 un1 = (st2, some r2) → GoodTT S r2)
    (var : String × String) :
    ∀ (values : List (TimeSlot × Room × Instructor)) (st : SearchStats) (tt : Timetable)
      (un : List (String × String)) (st' : SearchStats) (r : Timetable),
      SearchInv S tt un → var ∈ un →
      (∀ val ∈ values, AssignOK S (mkAssignment var val)) →
      tryValuesF recur st tt var values un = (st', some r) → GoodTT S r := by
  intro values
  induction values with
  | nil =>
    intro st tt un st' r _ _ _ h
    simp [tryValuesF] at h
  | cons value rest ih =>
    intro st tt un st' r inv hvar hok h
    have hokv : AssignOK S (mkAssignment var value) := hok value (by simp)
    have hokr : ∀ val ∈ rest, AssignOK S (mkAssignment var val) :=
      fun val hv => hok val (by simp [hv])
    rw [tryValuesF] at h
    by_cases hc : is_consistent_with_load_balancing tt (mkAssignment var value) = true
    · rw [if_pos hc] at h
      split at h
      next st2 result heq =>
        obtain ⟨-, h2⟩ : st2 = st' ∧ some result = some r :=
          ⟨congrArg Prod.fst h, congrArg Prod.snd h⟩
        obtain rfl := Option.some.inj h2
        have hkey : ((mkAssignment var value).section_id,
            (mkAssignment var value).course_id) = var := rfl
        exact hrec _ _ _ _ _ (searchInv_add inv hkey hokv hc) heq
      next st2 heq =>
        rw [restore_eq_of_inv inv rfl hvar (lb_spec hc).1] at h
        exact ih _ tt un st' r inv hvar hokr h
    · rw [if_neg hc] at h
      exact ih _ tt un st' r inv hvar hokr h

/-- Soundness of the recursive backtracking procedure: a returned
timetable from an invariant state is good. -/
theorem backtrackFuel_sound (S : Solver) (maxB : Nat) :
    ∀ (fuel : Nat) (st : SearchStats) (tt : Timetable) (un : List (String × String))
      (st' : SearchStats) (r : Timetable), SearchInv S tt un →
      backtrackFuel S maxB fuel st tt un = (st', some r) → GoodTT S r := by
  intro fuel
  induction fuel with
  | zero =>
    intro st tt un st' r inv h
    cases un with
    | nil =>
      simp only [backtrackFuel, Prod.mk.injEq, Option.some.injEq] at h
      obtain ⟨-, rfl⟩ := h
      exact inv.toGood
    | cons u us =>
      simp only [backtrackFuel, Prod.mk.injEq] at h
      exact absurd h.2 (by simp)
  | succ fuel ih =>
    intro st tt un st' r inv h
    cases un with
    | nil =>
      simp only [backtrackFuel, Prod.mk.injEq, Option.some.injEq] at h
      obtain ⟨-, rfl⟩ := h
      exact inv.toGood
    | cons u us =>
      rw [backtrackFuel] at h
      by_cases hb : st.backtracks > maxB
      · rw [if_pos hb] at h
        simp only [Prod.mk.injEq] at h
        exact absurd h.2 (by simp)
      · rw [if_neg hb] at h
        split at h
        next =>
          simp only [Prod.mk.injEq] at h
          exact absurd h.2 (by simp)
        next var hsel =>
          exact tryValuesF_sound S _
            (fun st1 tt1 un1 st2 r2 inv1 h1 => ih st1 tt1 un1 st2 r2 inv1 h1)
            var (domains S var) st tt (u :: us) st' r inv (select_mem hsel)
            (fun val hv => mem_domains_ok S var val hv) h

/-- Any timetable returned by backtracking_search is good. -/
theorem backtracking_search_sound {S : Solver} {st' : SearchStats} {r : Timetable}
    (h : backtracking_search S = (st', some r)) : GoodTT S r :=
  backtrackFuel_sound S 100000 (create_variables S.sections).length ⟨0, 0⟩
    emptyTimetable (create_variables S.sections) st' r
    (searchInv_empty S (create_variables S.sections)) h

/-- Any timetable produced by the attempt loop is good. -/
theorem solveAttempts_sound {S : Solver} :
    ∀ (n k : Nat) (r : Timetable), (solveAttempts S n k).1 = some r → GoodTT S r := by
  intro n
  induction n with
  | zero => intro k r h; simp [solveAttempts] at h
  | succ n ih =>
    intro k r h
    rw [solveAttempts] at h
    rcases hbs : (backtracking_search S).2 with _ | t
    · rw [hbs] at h
      exact ih (k + 1) r h
    · rw [hbs] at h
      obtain rfl : t = r := by simpa using h
      exact backtracking_search_sound
        (show backtracking_search S = ((backtracking_search S).1, some t) by rw [← hbs])

/-- Any timetable returned by solve is good (solve only passes through
results of backtracking_search). -/
theorem solve_sound {S : Solver} {r : Timetable} (h : solve S = some r) : GoodTT S r := by
  unfold solve at h
  exact solveAttempts_sound 3 0 r h

/-- A list pairwise free of double matches has at most one match. -/
theorem countP_le_one_of_pairwise {α : Type} {l : List α} {q : α → Bool}
    (h : l.Pairwise (fun a b => ¬(q a = true ∧ q b = true))) : l.countP q ≤ 1 := by
  induction l with
  | nil => simp
  | cons a l ih =>
    rw [List.countP_cons]
    rcases List.pairwise_cons.1 h with ⟨ha, hl⟩
    by_cases hq : q a = true
    · have hz : l.countP q = 0 := by
        rw [List.countP_eq_zero]
        intro b hb hqb
        exact ha b hb ⟨hq, hqb⟩
      simp [hz, hq]
    · have h1 := ih hl
      rw [if_neg hq]
      omega

/-- C1: for every Timetable returned by solve, no resource is
double-booked: for each instructor id and slot id at most one assignment
carries both, and likewise for (room, slot) and (section, slot). -/
theorem solve_no_double_booking (S : Solver) (tt : Timetable)
    (h : solve S = some tt) :
    (∀ I T : String, tt.assignments.countP
        (fun a => a.instructor.id == I && a.time_slot.id == T) ≤ 1) ∧
    (∀ R T : String, tt.assignments.countP
        (fun a => a.room.id == R && a.time_slot.id == T) ≤ 1) ∧
    (∀ Sec T : String, tt.assignments.countP
        (fun a => a.section_id == Sec && a.time_slot.id == T) ≤ 1) := by
  obtain ⟨pwI, pwR, pwS, -, -⟩ := solve_sound h
  refine ⟨fun I T => ?_, fun R T => ?_, fun Sec T => ?_⟩
  · refine countP_le_one_of_pairwise (List.Pairwise.imp ?_ pwI)
    intro a b hab hdouble
    obtain ⟨ha, hb⟩ := hdouble
    simp only [Bool.and_eq_true, beq_iff_eq] at ha hb
    exact hab ⟨ha.1.trans hb.1.symm, ha.2.trans hb.2.symm⟩
  · refine countP_le_one_of_pairwise (List.Pairwise.imp ?_ pwR)
    intro a b hab hdouble
    obtain ⟨ha, hb⟩ := hdouble
    simp only [Bool.and_eq_true, beq_iff_eq] at ha hb
    exact hab ⟨ha.1.trans hb.1.symm, ha.2.trans hb.2.symm⟩
  · refine countP_le_one_of_pairwise (List.Pairwise.imp ?_ pwS)
    intro a b hab hdouble
    obtain ⟨ha, hb⟩ := hdouble
    simp only [Bool.and_eq_true, beq_iff_eq] at ha hb
    exact hab ⟨ha.1.trans hb.1.symm, ha.2.trans hb.2.symm⟩

/-- Witness: instantiation of the double-booking theorem on a concrete
feasible instance solved by the embedded solver. -/
theorem solve_no_double_booking_witness :
    (∀ I T : String, ttFeasible.assignments.countP
        (fun a => a.instructor.id == I && a.time_slot.id == T) ≤ 1) ∧
    (∀ R T : String, ttFeasible.assignments.countP
        (fun a => a.room.id == R && a.time_slot.id == T) ≤ 1) ∧
    (∀ Sec T : String, ttFeasible.assignments.countP
        (fun a => a.section_id == Sec && a.time_slot.id == T) ≤ 1) :=
  solve_no_double_booking solverFeasible ttFeasible (by rfl)

/-- C2: every assignment of a returned timetable uses a qualified
instructor on one of that instructor's available days. -/
theorem solve_instructor_constraints (S : Solver) (tt : Timetable)
    (h : solve S = some tt) :
    ∀ a ∈ tt.assignments,
      a.course_id ∈ a.instructor.qualified_courses ∧
      a.time_slot.day ∉ a.instructor.unavailable_days := by
  intro a ha
  obtain ⟨h1, h2, -⟩ := (solve_sound h).okA a ha
  exact ⟨h1, h2⟩

/-- Witness: instructor-constraint theorem on the concrete feasible
instance, at its one concrete assignment. -/
theorem solve_instructor_constraints_witness :
    assignMon.course_id ∈ assignMon.instructor.qualified_courses ∧
    assignMon.time_slot.day ∉ assignMon.instructor.unavailable_days :=
  solve_instructor_constraints solverFeasible ttFeasible (by rfl) assignMon (by decide)

/-- C3: the room-type law for every assignment of a returned timetable:
lab-listed courses and courses whose type contains "Lab" sit in rooms of
type "Lab", every other assignment sits in a "Classroom" room. -/
theorem solve_room_type_law (S : Solver) (tt : Timetable)
    (h : solve S = some tt) :
    ∀ a ∈ tt.assignments, ∀ c, findCourse S.courses a.course_id = some c →
      ((a.course_id ∈ LAB_COURSES ∨ strContains c.type "Lab" = true) ↔
        a.room.type = "Lab") ∧
      (a.room.type ≠ "Lab" → a.room.type = "Classroom") := by
  intro a ha c hc
  obtain ⟨-, -, h3⟩ := (solve_sound h).okA a ha
  obtain ⟨hiff, hcls⟩ := h3 c hc
  exact ⟨hiff, fun hne => hcls (fun hreq => hne (hiff.1 hreq))⟩

/-- Witness: room-type law on the concrete feasible instance, at its
one concrete assignment and its course record. -/
theorem solve_room_type_law_witness :
    ((assignMon.course_id ∈ LAB_COURSES ∨ strContains courseC1.type "Lab" = true) ↔
      assignMon.room.type = "Lab") ∧
    (assignMon.room.type ≠ "Lab" → assignMon.room.type = "Classroom") :=
  solve_room_type_law solverFeasible ttFeasible (by rfl) assignMon (by decide)
    courseC1 (by decide)

/-- C4: the consistency predicate rejects any candidate whose day
already carries DAY_CAP assignments, and every returned timetable
carries at most DAY_CAP assignments on each weekday. -/
theorem day_cap_law :
    (∀ (tt : Timetable) (a : Assignment),
      DAY_CAP ≤ tt.assignments.countP (fun b => b.time_slot.day == a.time_slot.day) →
      is_consistent_with_load_balancing tt a = false) ∧
    (∀ (S : Solver) (tt : Timetable), solve S = some tt →
      ∀ d : String, tt.assignments.countP (fun b => b.time_slot.day == d) ≤ DAY_CAP) := by
  constructor
  · intro tt a hcnt
    have hcnt2 : 55 ≤ tt.assignments.countP (fun b => b.time_slot.day == a.time_slot.day) :=
      hcnt
    by_cases hc : is_consistent tt a = true
    · simp [is_consistent_with_load_balancing, hc, hcnt2]
    · simp [is_consistent_with_load_balancing, hc]
  · intro S tt h d
    exact (solve_sound h).cap d

/-- Timetable state holding 55 Monday assignments. -/
def ttCap : Timetable :=
  { assignments := List.replicate 55 assignMon
    assignment_dict := ∅
    instructor_schedule := ∅
    room_schedule := ∅
    section_schedule := ∅ }

/-- Witness: day-cap theorem at a concrete full day and on the concrete
feasible instance. -/
theorem day_cap_law_witness :
    is_consistent_with_load_balancing ttCap assignMon = false ∧
    (∀ d : String, ttFeasible.assignments.countP
      (fun b => b.time_slot.day == d) ≤ DAY_CAP) :=
  ⟨day_cap_law.1 ttCap assignMon (by decide),
   day_cap_law.2 solverFeasible ttFeasible (by rfl)⟩

/-- C5: on every non-empty unassigned list the selection operation
returns a variable of the list whose static precomputed domain size is
minimal, and every variable occurring before it in the list has a
strictly larger domain, so ties go to the first occurrence. -/
theorem select_next_variable_mrv (S : Solver) (un : List (String × String))
    (h : un ≠ []) :
    ∃ v pre post, select_next_variable S un = some v ∧ un = pre ++ v :: post ∧
      (∀ u ∈ un, (domains S v).length ≤ (domains S u).length) ∧
      (∀ u ∈ pre, (domains S v).length < (domains S u).length) :=
  select_min_spec S un h

/-- Witness: MRV selection on a concrete non-empty list. -/
theorem select_next_variable_mrv_witness :
    ∃ v pre post, select_next_variable solverFeasible [("S1", "C1")] = some v ∧
      [("S1", "C1")] = pre ++ v :: post ∧
      (∀ u ∈ [("S1", "C1")],
        (domains solverFeasible v).length ≤ (domains solverFeasible u).length) ∧
      (∀ u ∈ pre, (domains solverFeasible v).length < (domains solverFeasible u).length) :=
  select_next_variable_mrv solverFeasible [("S1", "C1")] (by simp)

/-- C6 (amended): adding then removing an assignment restores the
timetable exactly, provided the assignment is fresh: the consistency
check accepts it, it is not already in the assignment list, and its
(section, course) key is not bound in the assignment map. -/
theorem add_remove_roundtrip (tt : Timetable) (a : Assignment)
    (hc : is_consistent tt a = true)
    (hl : a ∉ tt.assignments)
    (hd : ∀ p ∈ tt.assignment_dict, p.1 ≠ (a.section_id, a.course_id)) :
    remove_assignment (add_assignment tt a) a = tt := by
  obtain ⟨hI, hR, hS⟩ := is_consistent_spec hc
  exact add_remove_restore tt a hI hR hS hl hd

/-- Witness: round trip on the empty timetable with a concrete
assignment. -/
theorem add_remove_roundtrip_witness :
    remove_assignment (add_assignment emptyTimetable assignMon) assignMon = emptyTimetable :=
  add_remove_roundtrip emptyTimetable assignMon (by decide) (by decide) (by decide)

/-- Assignment clashing with assignMon on instructor and slot. -/
def assignClash : Assignment := ⟨"S2", "C2", slotMon9, roomL1, instrI1⟩

/-- Timetable already holding assignMon. -/
def ttOne : Timetable := add_assignment emptyTimetable assignMon

/-- C6 counterexample: on a timetable already holding an assignment with
the same instructor and slot, add followed by remove does not restore
the prior state; the set-based index forgets the still-needed pair. -/
theorem add_remove_not_inverse_cex :
    remove_assignment (add_assignment ttOne assignClash) assignClash ≠ ttOne := by
  decide

/-- One unfolding step of the recursion when a variable got selected. -/
theorem backtrackFuel_cons_select {S : Solver} {maxB fuel : Nat} {st : SearchStats}
    {tt : Timetable} {u : String × String} {us : List (String × String)}
    {var : String × String}
    (hsel : select_next_variable S (u :: us) = some var)
    (hmax : ¬ st.backtracks > maxB) :
    backtrackFuel S maxB (fuel + 1) st tt (u :: us) =
      tryValuesF (fun st' tt' un' => backtrackFuel S maxB fuel st' tt' un')
        st tt var (domains S var) (u :: us) := by
  rw [backtrackFuel, if_neg hmax, hsel]

/-- With an empty-domain variable present, the search returns none
without touching the counters: MRV selects a variable of domain size
zero and the value loop has nothing to try. -/
theorem search_fails_immediately {S : Solver}
    (hne : create_variables S.sections ≠ [])
    (hed : ∃ v ∈ create_variables S.sections, domains S v = []) :
    backtracking_search S = (⟨0, 0⟩, none) := by
  obtain ⟨v0, hv0, hdom0⟩ := hed
  cases hvars : create_variables S.sections with
  | nil => exact absurd hvars hne
  | cons u us =>
    rw [hvars] at hv0
    obtain ⟨v, pre, post, hsel, hsplit, hmin, hpre⟩ := select_min_spec S (u :: us) (by simp)
    have hvdom : domains S v = [] := by
      have h1 := hmin v0 hv0
      rw [hdom0] at h1
      simp only [List.length_nil, Nat.le_zero] at h1
      exact List.length_eq_zero.1 h1
    simp only [backtracking_search, hvars, List.length_cons]
    rw [backtrackFuel_cons_select hsel (by decide), hvdom, tryValuesF]

/-- When the search fails, the attempt loop runs out its budget. -/
theorem solveAttempts_none {S : Solver} (hb : (backtracking_search S).2 = none) :
    ∀ n k, solveAttempts S n k = (none, k + n) := by
  intro n
  induction n with
  | zero => intro k; rfl
  | succ n ih =>
    intro k
    simp only [solveAttempts, hb]
    rw [ih]
    congr 1
    omega

/-- When the search succeeds, the first attempt returns. -/
theorem solveAttempts_some {S : Solver} {t : Timetable}
    (hb : (backtracking_search S).2 = some t) :
    ∀ n k, solveAttempts S (n + 1) k = (some t, k + 1) := by
  intro n k
  simp only [solveAttempts, hb]

/-- C7 (amended): when the variable list is non-empty and some variable
has an empty domain, search is still attempted (all three restart
attempts run) but each fails at once: solve returns none and the
backtrack counter stays at zero. -/
theorem empty_domain_solve_behaviour (S : Solver)
    (hne : create_variables S.sections ≠ [])
    (hed : ∃ v ∈ create_variables S.sections, domains S v = []) :
    solve S = none ∧ (backtracking_search S).1.backtracks = 0 ∧
    (solveAttempts S 3 0).2 = 3 := by
  have hbs := search_fails_immediately hne hed
  have hbs2 : (backtracking_search S).2 = none := by rw [hbs]
  have h3 : solveAttempts S 3 0 = (none, 0 + 3) := solveAttempts_none hbs2 3 0
  refine ⟨?_, by rw [hbs], ?_⟩
  · unfold solve
    rw [h3]
  · rw [h3]

/-- Instance with a variable but no instructor: an empty domain. -/
def solverNoInstructor : Solver := mkSolver [courseC1] [] [roomR1] [sectionS1] [slotMon9]

/-- Witness: the amended empty-domain behaviour on the concrete
instructor-free instance. -/
theorem empty_domain_solve_behaviour_witness :
    solve solverNoInstructor = none ∧
    (backtracking_search solverNoInstructor).1.backtracks = 0 ∧
    (solveAttempts solverNoInstructor 3 0).2 = 3 :=
  empty_domain_solve_behaviour solverNoInstructor (by decide)
    ⟨("S1", "C1"), by decide, by decide⟩

/-- C7 counterexample: on that same concrete instance the backtracking
search runs three attempts rather than not being attempted at all. -/
theorem empty_domain_search_attempted_cex :
    (∃ v ∈ create_variables solverNoInstructor.sections,
      domains solverNoInstructor v = []) ∧
    (solveAttempts solverNoInstructor 3 0).2 = 3 := by
  exact ⟨⟨("S1", "C1"), by decide, by decide⟩, by decide⟩

/-- Search-level behaviour on an empty variable list: backtracking
returns the fresh empty timetable at once and the attempt loop stops
after one invocation. Reached only if construction survives; see
`empty_variables_init_crash`. -/
theorem solve_of_no_variables (S : Solver) (h : create_variables S.sections = []) :
    solve S = some emptyTimetable ∧ (solveAttempts S 3 0).2 = 1 := by
  have hbs : (backtracking_search S).2 = some emptyTimetable := by
    simp only [backtracking_search, h, List.length_nil]
    rfl
  have h3 : solveAttempts S 3 0 = (some emptyTimetable, 0 + 1) := solveAttempts_some hbs 2 0
  exact ⟨by unfold solve; rw [h3], by rw [h3]⟩

/-- Post-init state assembled from empty inputs (Python never reaches
this state: __init__ raises first). -/
def solverNoSections : Solver := mkSolver [] [] [] [] []

/-- C8 (code bug): with no (section, course) pairs, the domain-size
statistics of __init__ take the min of an empty sequence and raise, so
the solver object is never constructed and solve is unreachable; the
search itself, had construction completed, would return the empty
timetable from its first attempt, as the claim describes. -/
theorem empty_variables_init_crash :
    create_variables solverNoSections.sections = [] ∧
    mkSolverChecked [] [] [] [] [] = none ∧
    solve solverNoSections = some emptyTimetable ∧
    (solveAttempts solverNoSections 3 0).2 = 1 :=
  ⟨by decide, by decide,
   (solve_of_no_variables solverNoSections (by decide)).1,
   (solve_of_no_variables solverNoSections (by decide)).2⟩

/-- addQual never changes the id. -/
theorem addQual_id (c : String) (i : Instructor) : (addQual c i).id = i.id := by
  unfold addQual
  split_ifs <;> rfl

/-- addQual establishes membership of the added course. -/
theorem addQual_mem (c : String) (i : Instructor) :
    c ∈ (addQual c i).qualified_courses := by
  unfold addQual
  split_ifs with h
  · exact h
  · simp

/-- addQual preserves existing memberships. -/
theorem addQual_mono {d : String} (c : String) {i : Instructor}
    (h : d ∈ i.qualified_courses) : d ∈ (addQual c i).qualified_courses := by
  unfold addQual
  split_ifs with hc
  · exact h
  · simp [h]

/-- addQual preserves duplicate-freeness (it skips an already qualified
course). -/
theorem addQual_nodup {c : String} {i : Instructor}
    (h : i.qualified_courses.Nodup) : (addQual c i).qualified_courses.Nodup := by
  unfold addQual
  split_ifs with hc
  · exact h
  · simpa [List.nodup_append, h] using hc

/-- Suitability only looks at the id. -/
theorem isSuitable_congr {i j : Instructor} (h : i.id = j.id) :
    isSuitable i = isSuitable j := by
  unfold isSuitable strContains
  rw [h]

/-- Position-wise description of one course round. -/
theorem applyCourse_getElem (c : String) (l : List Instructor) (k : Nat)
    (i : Instructor) (h : l[k]? = some i) :
    (applyCourse c l)[k]? =
      some (if i.id ∈ chosenIds l then addQual c i else i) := by
  unfold applyCourse
  rw [List.getElem?_map, h]
  rfl

/-- A chosen id belongs to some suitable member of the list. -/
theorem chosenIds_suitable {l : List Instructor} {x : String}
    (h : x ∈ chosenIds l) : ∃ b ∈ l, isSuitable b = true ∧ b.id = x := by
  unfold chosenIds at h
  obtain ⟨b, hb, rfl⟩ := List.mem_map.1 h
  have hb2 := List.mem_of_mem_take hb
  exact ⟨b, (List.mem_filter.1 hb2).1, (List.mem_filter.1 hb2).2, rfl⟩

/-- One course round keeps the chosen-ids list unchanged (suitability
and ids are untouched by addQual). -/
theorem chosenIds_applyCourse (c : String) (l : List Instructor) :
    chosenIds (applyCourse c l) = chosenIds l := by
  unfold chosenIds applyCourse
  rw [List.filter_map]
  have h1 : (l.filter (isSuitable ∘ fun i => if i.id ∈ chosenIds l then addQual c i else i)) =
      l.filter isSuitable := by
    apply List.filter_congr
    intro i _
    simp only [Function.comp]
    by_cases h : i.id ∈ chosenIds l
    · rw [if_pos h]
      exact isSuitable_congr (addQual_id c i)
    · rw [if_neg h]
  rw [h1, ← List.map_take, List.map_map]
  apply List.map_congr_left
  intro i _
  simp only [Function.comp]
  by_cases h : i.id ∈ chosenIds l
  · rw [if_pos h]
    exact addQual_id c i
  · rw [if_neg h]

/-- Every fold step keeps the list length. -/
theorem fold_applyCourse_length (cs : List String) :
    ∀ l : List Instructor, (cs.foldl (fun acc c => applyCourse c acc) l).length = l.length := by
  induction cs with
  | nil => intro l; rfl
  | cons c cs ih =>
    intro l
    rw [List.foldl_cons, ih]
    simp [applyCourse]

/-- With no suitable instructor at all, one round is a no-op. -/
theorem applyCourse_no_suitable {c : String} {l : List Instructor}
    (h : ∀ i ∈ l, isSuitable i = false) : applyCourse c l = l := by
  have hch : chosenIds l = [] := by
    unfold chosenIds
    rw [List.filter_eq_nil_iff.2 (by intro i hi; simp [h i hi])]
    rfl
  unfold applyCourse
  rw [hch]
  simp

/-- With no suitable instructor at all, the whole fold is a no-op. -/
theorem fold_applyCourse_no_suitable (cs : List String) :
    ∀ l : List Instructor, (∀ i ∈ l, isSuitable i = false) →
      cs.foldl (fun acc c => applyCourse c acc) l = l := by
  induction cs with
  | nil => intro l _; rfl
  | cons c cs ih =>
    intro l h
    rw [List.foldl_cons, applyCourse_no_suitable h, ih l h]

/-- Position-wise description of the whole course fold, for a
duplicate-free course list: a position whose id is not among the chosen
ids (the ids of the first three suitable instructors) is untouched; a
chosen position receives exactly the not-yet-present courses of the
list, appended in order. -/
theorem fold_applyCourse_getElem (cs : List String) (hnd : cs.Nodup) :
    ∀ (l : List Instructor) (k : Nat) (i : Instructor), l[k]? = some i →
      ∃ j, (cs.foldl (fun acc c => applyCourse c acc) l)[k]? = some j ∧
        j.id = i.id ∧
        (i.id ∉ chosenIds l → j = i) ∧
        (i.id ∈ chosenIds l →
          j.qualified_courses = i.qualified_courses ++
            cs.filter (fun c => c ∉ i.qualified_courses)) := by
  induction cs with
  | nil =>
    intro l k i h
    exact ⟨i, h, rfl, fun _ => rfl, fun _ => by simp⟩
  | cons c cs ih =>
    intro l k i h
    rw [List.foldl_cons]
    have hnd2 : cs.Nodup := (List.nodup_cons.1 hnd).2
    have hcns : c ∉ cs := (List.nodup_cons.1 hnd).1
    have h1 := applyCourse_getElem c l k i h
    by_cases hch : i.id ∈ chosenIds l
    · rw [if_pos hch] at h1
      obtain ⟨j, hj, hjid, hjunch, hjchosen⟩ := ih hnd2 (applyCourse c l) k (addQual c i) h1
      refine ⟨j, hj, by rw [hjid, addQual_id], fun hn => absurd hch hn, fun _ => ?_⟩
      have hch2 : (addQual c i).id ∈ chosenIds (applyCourse c l) := by
        rw [chosenIds_applyCourse, addQual_id]
        exact hch
      have hq := hjchosen hch2
      by_cases hcq : c ∈ i.qualified_courses
      · have haq : addQual c i = i := by
          unfold addQual
          rw [if_pos hcq]
        rw [haq] at hq
        rw [hq, List.filter_cons]
        rw [if_neg (by simpa using hcq)]
      · have haq : (addQual c i).qualified_courses = i.qualified_courses ++ [c] := by
          unfold addQual
          rw [if_neg hcq]
        rw [hq, haq, List.filter_cons, if_pos (by simpa using hcq), List.append_assoc,
          List.singleton_append]
        congr 2
        apply List.filter_congr
        intro d hd
        have hdc : d ≠ c := fun hdc => hcns (hdc ▸ hd)
        simp [List.mem_append, hdc]
    · rw [if_neg hch] at h1
      obtain ⟨j, hj, hjid, hjunch, hjchosen⟩ := ih hnd2 (applyCourse c l) k i h1
      refine ⟨j, hj, hjid, fun _ => ?_, fun hmem => absurd hmem hch⟩
      refine hjunch ?_
      rw [chosenIds_applyCourse]
      exact hch

/-- Python `id.startswith(p)`: the reading of "id matches the
configured prefix p" in which p must be a prefix of the id. -/
def idStartsWith (i : Instructor) (p : String) : Bool :=
  p.toList.isPrefixOf i.id.toList

/-- Instructor whose id contains a marker but does not start with one. -/
def oddInstructor : Instructor := ⟨"XPROF27", "X", [], []⟩

/-- C9 counterexample: the augmentation step modifies an instructor
whose id does not start with any configured marker (the id merely
contains one as a substring), so under prefix matching the step would be
a no-op but the code changes the qualification list. -/
theorem fix_quals_substring_cex :
    (∀ p ∈ instructorMarkers, idStartsWith oddInstructor p = false) ∧
    fix_instructor_qualifications [oddInstructor] ≠ [oddInstructor] := by
  decide

/-- C9 (amended): for each orphan course, the step appends the course to
the qualification lists of exactly the first three instructors whose id
contains a configured marker as a substring (the chosen ids), skipping
courses already present; every other instructor — including ones whose
id contains a marker but who are not among the first three — is left
unmodified, and if no instructor's id contains a marker the whole step
is a no-op. -/
theorem fix_quals_augmentation (instrs : List Instructor) :
    (fix_instructor_qualifications instrs).length = instrs.length ∧
    ((∀ i ∈ instrs, isSuitable i = false) →
      fix_instructor_qualifications instrs = instrs) ∧
    (∀ (k : Nat) (i : Instructor), instrs[k]? = some i →
      ∃ j, (fix_instructor_qualifications instrs)[k]? = some j ∧
        j.id = i.id ∧
        (i.id ∉ chosenIds instrs → j = i) ∧
        (i.id ∈ chosenIds instrs →
          j.qualified_courses = i.qualified_courses ++
            missing_courses.filter (fun c => c ∉ i.qualified_courses))) := by
  refine ⟨fold_applyCourse_length missing_courses instrs,
    fold_applyCourse_no_suitable missing_courses instrs, ?_⟩
  intro k i h
  exact fold_applyCourse_getElem missing_courses (by decide) instrs k i h

/-- Unsuitable-only instructor list for the witness. -/
def plainInstructor : Instructor := ⟨"B1", "b", [], ["X"]⟩

/-- Suitable instructor for the witness. -/
def markedInstructor : Instructor := ⟨"PROF27A", "a", [], []⟩

/-- Witness: the augmentation theorem instantiated on concrete lists,
with every hypothesis discharged concretely. -/
theorem fix_quals_augmentation_witness :
    (fix_instructor_qualifications [plainInstructor] = [plainInstructor]) ∧
    (∃ j, (fix_instructor_qualifications [markedInstructor])[0]? = some j ∧
      j.id = markedInstructor.id ∧
      (markedInstructor.id ∉ chosenIds [markedInstructor] → j = markedInstructor) ∧
      (markedInstructor.id ∈ chosenIds [markedInstructor] →
        j.qualified_courses = markedInstructor.qualified_courses ++
          missing_courses.filter (fun c => c ∉ markedInstructor.qualified_courses))) :=
  ⟨(fix_quals_augmentation [plainInstructor]).2.1 (by decide),
   (fix_quals_augmentation [markedInstructor]).2.2 0 markedInstructor (by decide)⟩

/-- C10: with its default three attempts, solve returns exactly the
result of a single backtracking_search invocation; in particular a
failing first attempt makes solve fail. -/
theorem solve_eq_single_search (S : Solver) :
    solve S = (backtracking_search S).2 := by
  unfold solve
  rcases hbs : (backtracking_search S).2 with _ | t
  · rw [solveAttempts_none hbs 3 0]
  · rw [solveAttempts_some hbs 2 0]
